import Mathlib

/-!
# Verification of the LaserResist fill-generation and bloom-compensation core

Shallow embedding of `src/laserresist/fill_generator.py` and
`src/laserresist/bloom_compensator.py`.

The planar-geometry engine (shapely) is an external collaborator of the
source: polygon emptiness tests, inward buffering, boundary extraction,
boolean operations and the minimum-rotated-rectangle centerline extraction
are library calls.  For the claims about control flow of `generate_fill`
(termination, path-length filtering, output shape, the first-iteration
fallback) those calls are abstracted as an operation record `GeomOps`; the
Python code is translated statement by statement on top of it, with `float`
idealised as `ℚ`.  Geometry-specific claims (`_detect_thin_annular_pads_at_start`,
`_is_path_isolated`) are embedded separately with exact coordinates.
-/

namespace LaserResist

/-- A laser path.  Only its length is inspected by the filtering logic of
`generate_fill` (shapely `LineString.length`), so paths are abstracted to
their lengths; an `id` keeps distinct source lines distinguishable. -/
structure FillPath where
  id : Nat
  length : ℚ
deriving DecidableEq, Repr

/-- A trace-centerline record `{'line': ..., 'width': ...}` as consumed by
`generate_fill`. -/
structure TraceElement where
  line : FillPath
  width : ℚ
deriving DecidableEq, Repr

/-- The geometry operations `generate_fill` delegates to shapely (and to its
own geometry helpers).  `G` is the type of planar regions. -/
structure GeomOps (G : Type) where
  /-- `geometry.is_empty` -/
  isEmpty : G → Bool
  /-- `_get_total_area` -/
  area : G → ℚ
  /-- raw inward offset `geometry.buffer(-d)` (used at iteration 0 and for
  the interior-zone fallback) -/
  buffer : G → ℚ → G
  /-- `_buffer_incremental(geometry, d)`: inward offset normalised to a
  multipolygon -/
  bufferIncremental : G → ℚ → G
  /-- `_extract_boundaries` -/
  boundaries : G → List FillPath
  /-- `_extract_centerlines` (minimum-rotated-rectangle long-axis midpoints) -/
  centerlines : G → List FillPath
  /-- `_detect_thin_annular_pads_at_start` (its exact decision rule is
  verified separately on coordinates) -/
  annularRings : G → List FillPath
  /-- `a.difference(b)` -/
  difference : G → G → G
  /-- the `LineString` pieces of `line.intersection(region)` -/
  intersectSegments : FillPath → G → List FillPath
  /-- `_create_filled_zone` after its internal `> 0.01` length filter:
  union of the given contour paths each buffered by the given distance -/
  filledZone : List FillPath → ℚ → G
  /-- `_is_path_isolated(path, full_geometry)` (its exact decision rule is
  verified separately on coordinates) -/
  isolated : FillPath → G → Bool

/-- State of the contour-offset loop of `generate_fill` (lines 87-138). -/
structure LoopState (G : Type) where
  /-- `current_geom` -/
  geom : G
  /-- `iteration` -/
  iteration : Nat
  /-- `paths` accumulated so far -/
  paths : List FillPath
  /-- `contour_paths` accumulated so far -/
  contours : List FillPath
  /-- `remaining_unfilled` -/
  remaining : Option G
  /-- whether the `iteration > 1000` warning was reported -/
  capHit : Bool

/-- The degenerate-path length threshold `0.01` mm used throughout the
generator. -/
def minPathLength : ℚ := 1 / 100

/-- The loop state at entry of the contour-offset loop (`iteration = 0`,
nothing remaining, no cap warning). -/
def initLoopState {G : Type} (g : G) (paths0 contours0 : List FillPath) :
    LoopState G :=
  { geom := g, iteration := 0, paths := paths0, contours := contours0,
    remaining := none, capHit := false }

/-- One pass of the contour-offset loop of `generate_fill`
(fill_generator.py lines 87-138).  `Sum.inl` is a finished state (the loop
broke or its condition failed), `Sum.inr` continues with the next state:

* the loop condition `while not current_geom.is_empty` (line 89);
* iteration 0 with `initial_offset > 0` buffers inward first and falls back
  to the un-offset geometry when that result is empty (lines 92-100);
* boundary paths shorter than 0.01 mm are dropped (line 106);
* the stop condition is `next_geom.is_empty or (current_area > 0 and
  next_area < current_area * 0.1)`, in which case centerlines (filtered to
  length > 0.01) are emitted and the loop breaks (lines 117-128);
* otherwise the iteration counter is incremented and the `iteration > 1000`
  cap breaks the loop with a report (lines 134-138). -/
def fillLoopStep {G : Type} (ops : GeomOps G) (lineSpacing initialOffset : ℚ)
    (st : LoopState G) : LoopState G ⊕ LoopState G :=
  if ops.isEmpty st.geom then Sum.inl st
  else
    let boundaryPaths :=
      if st.iteration = 0 ∧ 0 < initialOffset then
        let offsetGeom := ops.buffer st.geom initialOffset
        if ops.isEmpty offsetGeom then ops.boundaries st.geom
        else ops.boundaries offsetGeom
      else ops.boundaries st.geom
    let bps := boundaryPaths.filter (fun p => minPathLength < p.length)
    let paths := st.paths ++ bps
    let contours := st.contours ++ bps
    let nextGeom := ops.bufferIncremental st.geom lineSpacing
    let currentArea := ops.area st.geom
    let nextArea := ops.area nextGeom
    if ops.isEmpty nextGeom ∨ (0 < currentArea ∧ nextArea < currentArea * (1 / 10)) then
      let cls := (ops.centerlines st.geom).filter (fun c => minPathLength < c.length)
      Sum.inl { geom := st.geom, iteration := st.iteration, paths := paths ++ cls,
                contours := contours ++ cls, remaining := some st.geom,
                capHit := st.capHit }
    else
      if st.iteration + 1 > 1000 then
        Sum.inl { geom := nextGeom, iteration := st.iteration + 1, paths := paths,
                  contours := contours, remaining := some nextGeom, capHit := true }
      else
        Sum.inr { geom := nextGeom, iteration := st.iteration + 1, paths := paths,
                  contours := contours, remaining := st.remaining, capHit := st.capHit }

/-- The contour-offset loop, iterating `fillLoopStep` with explicit fuel
(the Python `while` loop has no fuel; `fillLoop_fuel_irrelevant` below shows
that any fuel of at least 1001 yields the same result, which is the
termination guarantee provided by the iteration cap). -/
def fillLoop {G : Type} (ops : GeomOps G) (lineSpacing initialOffset : ℚ) :
    Nat → LoopState G → LoopState G
  | 0, st => st
  | fuel + 1, st =>
    match fillLoopStep ops lineSpacing initialOffset st with
    | Sum.inl done => done
    | Sum.inr st' => fillLoop ops lineSpacing initialOffset fuel st'

/-- `_offset_line_from_ends(line, offset)` (fill_generator.py lines 605-638):
`substring(line, offset, total_length - offset)`, or `None` when
`total_length <= offset * 2`.  The substring of an arc-length parametrised
line between distances `offset` and `L - offset` has length `L - 2*offset`. -/
def offsetLineFromEnds (line : FillPath) (offset : ℚ) : Option FillPath :=
  if line.length ≤ offset * 2 then none
  else some { id := line.id, length := line.length - 2 * offset }

/-- The `force_trace_centerlines` branch of `generate_fill`
(lines 149-174): thickness filter, then either end-offset trimming with the
`>= line_spacing * 2.5` keep-threshold or the plain `> 0.01` length filter. -/
def forcedTraceCenterlines (lineSpacing maxThickness : ℚ)
    (offsetCenterlines : Bool) (traceCenterlines : List TraceElement) :
    List FillPath :=
  let filtered := (traceCenterlines.filter
    (fun tc => maxThickness ≤ 0 ∨ tc.width ≤ maxThickness)).map (·.line)
  if offsetCenterlines then
    filtered.filterMap (fun line =>
      (offsetLineFromEnds line lineSpacing).bind (fun trimmed =>
        if lineSpacing * (5 / 2) ≤ trimmed.length then some trimmed else none))
  else
    filtered.filter (fun line => minPathLength < line.length)

/-- `_clip_centerlines_to_geometry` (lines 427-469): intersect each line with
the geometry and keep the resulting segments of length `> 0.01`. -/
def clipCenterlinesToGeometry {G : Type} (ops : GeomOps G)
    (centerlines : List FillPath) (geometry : G) : List FillPath :=
  centerlines.flatMap (fun line =>
    (ops.intersectSegments line geometry).filter
      (fun seg => minPathLength < seg.length))

/-- `_clip_centerlines_avoiding_filled_zones` (lines 534-603): per line,
compute the unfilled corridor `original - filled`, intersect, then either
end-offset each segment and keep it when `>= line_spacing * 2.5`, or keep it
when `>= 0.01` (note `>=`, not `>`). -/
def clipCenterlinesAvoidingFilledZones {G : Type} (ops : GeomOps G)
    (lineSpacing : ℚ) (centerlines : List FillPath)
    (originalGeometry filledZone : G) (offsetEnds : Bool) : List FillPath :=
  let minLengthThreshold := if offsetEnds then lineSpacing * (5 / 2) else minPathLength
  centerlines.flatMap (fun line =>
    let unfilledCorridor := ops.difference originalGeometry filledZone
    if ops.isEmpty unfilledCorridor then []
    else
      let segments := ops.intersectSegments line unfilledCorridor
      segments.filterMap (fun seg =>
        if offsetEnds then
          (offsetLineFromEnds seg lineSpacing).bind (fun trimmed =>
            if minLengthThreshold ≤ trimmed.length then some trimmed else none)
        else
          if minLengthThreshold ≤ seg.length then some seg else none))

/-- Result of `generate_fill`: a flat path list, or the
`{'normal': ..., 'isolated': ...}` dictionary when isolated-feature
separation ran. -/
inductive FillResult where
  | flat (paths : List FillPath)
  | split (normal isolated : List FillPath)
deriving DecidableEq, Repr

/-- All paths carried by a `FillResult`. -/
def FillResult.allPaths : FillResult → List FillPath
  | .flat paths => paths
  | .split normal isolated => normal ++ isolated

/-- The options of `FillGenerator.__init__`. -/
structure FillOptions where
  lineSpacing : ℚ
  initialOffset : ℚ
  forcedPadCenterlines : Bool
  forceTraceCenterlines : Bool
  forceTraceCenterlinesMaxThickness : ℚ
  doubleExposeIsolated : Bool
  isolationThreshold : ℚ

/-- The paths collected by the pre-passes of `generate_fill` before the
contour-offset loop starts: forced pad centerlines if enabled (lines 64-71)
followed by the thin-annular-ring circles (lines 56-58 and 74-79); both are
appended to `paths` and `contour_paths`.  `forcedPadPaths` stands for the
output of `_generate_forced_pad_centerlines(pads, drill_holes, rings)`,
which depends on the pad records. -/
def initialFillPaths {G : Type} (ops : GeomOps G) (opt : FillOptions)
    (geometry : G) (forcedPadPaths : List FillPath) : List FillPath :=
  (if opt.forcedPadCenterlines then forcedPadPaths else []) ++
    ops.annularRings geometry

/-- The state after the contour-offset loop of `generate_fill` (lines
87-138).  The loop is run with fuel 1001, which `generateFill_terminates`
shows to be enough for the `iteration > 1000` cap. -/
def fillLoopResult {G : Type} (ops : GeomOps G) (opt : FillOptions)
    (geometry : G) (forcedPadPaths : List FillPath) : LoopState G :=
  fillLoop ops opt.lineSpacing opt.initialOffset 1001
    (initLoopState geometry (initialFillPaths ops opt geometry forcedPadPaths)
      (initialFillPaths ops opt geometry forcedPadPaths))

/-- The trace-centerline pass of `generate_fill` (lines 146-198), given the
contour paths accumulated so far: skipped for an empty/absent trace list;
the force branch emits (optionally trimmed) unclipped centerlines;
otherwise the centerlines are clipped against the filled zone built from
the contour paths, falling back to clipping against the inward-buffered
geometry when the filled zone is empty. -/
def traceCenterlinePass {G : Type} (ops : GeomOps G) (opt : FillOptions)
    (geometry : G) (traceCenterlines : List TraceElement)
    (offsetCenterlines : Bool) (contours : List FillPath) : List FillPath :=
  if traceCenterlines = [] then []
  else if opt.forceTraceCenterlines then
    forcedTraceCenterlines opt.lineSpacing opt.forceTraceCenterlinesMaxThickness
      offsetCenterlines traceCenterlines
  else
    let centerlineLines := traceCenterlines.map (·.line)
    let filledZone := ops.filledZone
      (contours.filter (fun p => minPathLength < p.length)) (opt.lineSpacing / 2)
    if ops.isEmpty filledZone then
      let interiorZone := ops.buffer geometry (opt.lineSpacing * (1 / 2))
      if ops.isEmpty interiorZone then []
      else clipCenterlinesToGeometry ops centerlineLines interiorZone
    else
      clipCenterlinesAvoidingFilledZones ops opt.lineSpacing centerlineLines
        geometry filledZone offsetCenterlines

/-- All paths accumulated by `generate_fill`: the pre-pass and loop paths
followed by the trace-centerline paths. -/
def generateFillPaths {G : Type} (ops : GeomOps G) (opt : FillOptions)
    (geometry : G) (traceCenterlines : List TraceElement)
    (offsetCenterlines : Bool) (forcedPadPaths : List FillPath) :
    List FillPath :=
  (fillLoopResult ops opt geometry forcedPadPaths).paths ++
    traceCenterlinePass ops opt geometry traceCenterlines offsetCenterlines
      (fillLoopResult ops opt geometry forcedPadPaths).contours

/-- `generate_fill(geometry, trace_centerlines, offset_centerlines, pads,
drill_holes)` (fill_generator.py lines 33-209): collect the paths and, when
`double_expose_isolated` is set with a positive `isolation_threshold`,
separate them with `_separate_isolated_paths` (lines 200-209, 211-230);
the junction-detection pass is dead code (`junction_fills = []`). -/
def generateFill {G : Type} (ops : GeomOps G) (opt : FillOptions)
    (geometry : G) (traceCenterlines : List TraceElement)
    (offsetCenterlines : Bool) (forcedPadPaths : List FillPath) : FillResult :=
  let paths := generateFillPaths ops opt geometry traceCenterlines
    offsetCenterlines forcedPadPaths
  if opt.doubleExposeIsolated ∧ 0 < opt.isolationThreshold then
    .split (paths.filter (fun p => ¬ ops.isolated p geometry))
      (paths.filter (fun p => ops.isolated p geometry))
  else
    .flat paths

/-! ## Bloom compensator (`bloom_compensator.py`)

`identify_underexposed_traces(simulator, trace_elements, threshold_percentile,
min_trace_length)` receives the simulator as a parameter and only calls
`simulator.get_path_ambient_bloom(line, ...)` on it, and only reads
`t['line'].length` from each trace element.  The simulator and the shapely
line objects are therefore abstracted into two functions on an uninterpreted line
type `L`: the line length and the ambient-bloom sample. -/

/-- A trace element `{'line': ..., 'width': ...}` over an abstract line
type, as consumed by `identify_underexposed_traces`. -/
structure BloomTrace (L : Type) where
  line : L
  width : ℚ
deriving DecidableEq, Repr

/-- The virtual index `rank = q/100 * (n-1)` of the `q`-th percentile in a
sorted array of `n` values. -/
def percentileRank (n : Nat) (q : ℚ) : ℚ := q / 100 * ((n : ℚ) - 1)

/-- Linear interpolation between the order statistics neighbouring `rank`
(numpy's default interpolation method): `v[⌊rank⌋] + (rank - ⌊rank⌋) *
(v[⌊rank⌋ + 1] - v[⌊rank⌋])`, the upper neighbour falling back to the lower
one at the top end. -/
def linInterp (sorted : List ℚ) (rank : ℚ) : ℚ :=
  let i : Nat := (⌊rank⌋).toNat
  let gamma : ℚ := rank - ⌊rank⌋
  let lo := sorted.getD i 0
  let hi := sorted.getD (i + 1) lo
  lo + gamma * (hi - lo)

/-- `np.percentile(xs, q)` with the default linear interpolation method:
sort, take `rank = q/100 * (n-1)`, and interpolate between the neighbouring
order statistics.  numpy validates `0 <= q <= 100` (`ValueError` otherwise)
and raises an `IndexError` when asked to take from an empty array. -/
def npPercentile (xs : List ℚ) (q : ℚ) : Except String ℚ :=
  if q < 0 ∨ 100 < q then
    .error "ValueError: Percentiles must be in the range [0, 100]"
  else if xs = [] then
    .error "IndexError: cannot do a non-empty take from an empty axes."
  else
    .ok (linInterp (xs.insertionSort (· ≤ ·)) (percentileRank xs.length q))

/-- `identify_underexposed_traces` (bloom_compensator.py lines 146-194):
filter by minimum length, sample ambient bloom per trace, threshold at the
percentile of the sampled values, and split into (normal, underexposed),
underexposed being those with ambient bloom strictly below the threshold.
The `Except` propagates the numpy exception for an empty value array. -/
def identifyUnderexposedTraces {L : Type} (lineLength ambientBloom : L → ℚ)
    (traceElements : List (BloomTrace L))
    (thresholdPercentile minTraceLength : ℚ) :
    Except String (List (BloomTrace L) × List (BloomTrace L)) :=
  let meaningfulTraces := traceElements.filter
    (fun t => minTraceLength ≤ lineLength t.line)
  let bloomValues := meaningfulTraces.map (fun t => ambientBloom t.line)
  match npPercentile bloomValues thresholdPercentile with
  | .error e => .error e
  | .ok bloomThreshold =>
    .ok (meaningfulTraces.filter (fun t => ¬ ambientBloom t.line < bloomThreshold),
         meaningfulTraces.filter (fun t => ambientBloom t.line < bloomThreshold))

/-! ## Bloom simulator rasterization (`FastBloomSimulator.rasterize_paths`)

A shapely path enters `rasterize_paths` through three operations: `length`,
`coords` and normalised `interpolate`; they are carried as fields. -/

/-- A path as seen by the rasterizer. -/
structure RasterPath where
  length : ℚ
  coords : List (ℚ × ℚ)
  /-- `path.interpolate(t, normalized=True)` -/
  interpolateAt : ℚ → ℚ × ℚ

/-- `np.round` rounds half to even (banker's rounding). -/
def npRound (x : ℚ) : ℤ :=
  if x - ⌊x⌋ < 1 / 2 then ⌊x⌋
  else if 1 / 2 < x - ⌊x⌋ then ⌊x⌋ + 1
  else if Even ⌊x⌋ then ⌊x⌋ else ⌊x⌋ + 1

/-- `world_to_grid(x, y)` (bloom_compensator.py lines 52-57). -/
def worldToGrid (minX minY resolution : ℚ) (pt : ℚ × ℚ) : ℤ × ℤ :=
  (npRound ((pt.1 - minX) / resolution), npRound ((pt.2 - minY) / resolution))

/-- The number of samples taken for one path (lines 65-67):
`max(max(2, ceil(length / sample_distance)), min_samples)`. -/
def numSamples (p : RasterPath) (sampleDistance : ℚ) (minSamples : Nat) : Nat :=
  max (max 2 (⌈p.length / sampleDistance⌉).toNat) minSamples

/-- The sample points for one path (lines 69-73): the raw coordinate list
when the sample count is 2, otherwise `num_samples` equally spaced
normalised interpolation points. -/
def samplePoints (p : RasterPath) (sampleDistance : ℚ) (minSamples : Nat) :
    List (ℚ × ℚ) :=
  let n := numSamples p sampleDistance minSamples
  if n = 2 then p.coords
  else (List.range n).map (fun i : Nat => p.interpolateAt ((i : ℚ) / ((n : ℚ) - 1)))

/-- Grid shape `(grid_height, grid_width)` paired with the world origin and
resolution. -/
structure RasterGridSpec where
  gridHeight : Nat
  gridWidth : Nat
  minX : ℚ
  minY : ℚ
  resolution : ℚ

/-- Whether a grid index pair `(gx, gy)` is inside the grid (line 78). -/
def inGrid (spec : RasterGridSpec) (c : ℤ × ℤ) : Prop :=
  0 ≤ c.1 ∧ c.1 < (spec.gridWidth : ℤ) ∧ 0 ≤ c.2 ∧ c.2 < (spec.gridHeight : ℤ)

instance (spec : RasterGridSpec) (c : ℤ × ℤ) : Decidable (inGrid spec c) := by
  unfold inGrid; infer_instance

/-- Add one sample hit to the grid (line 79: `raster_grid[gy, gx] += 1.0`),
skipping out-of-grid samples.  The grid is modelled as a function from
index pairs to accumulated energy. -/
def addHit (spec : RasterGridSpec) (grid : ℤ × ℤ → ℚ) (pt : ℚ × ℚ) :
    ℤ × ℤ → ℚ :=
  let c := worldToGrid spec.minX spec.minY spec.resolution pt
  if inGrid spec c then
    fun d => if d = c then grid d + 1 else grid d
  else grid

/-- `rasterize_paths(paths, sample_distance, min_samples)` (lines 59-81):
start from a zero grid and accumulate every in-grid sample of every path. -/
def rasterizePaths (spec : RasterGridSpec) (paths : List RasterPath)
    (sampleDistance : ℚ) (minSamples : Nat) : ℤ × ℤ → ℚ :=
  paths.foldl
    (fun grid p => (samplePoints p sampleDistance minSamples).foldl (addHit spec) grid)
    (fun _ => 0)

/-- The number of samples of one path that fall on grid cell `c`. -/
def pathHits (spec : RasterGridSpec) (p : RasterPath)
    (sampleDistance : ℚ) (minSamples : Nat) (c : ℤ × ℤ) : Nat :=
  ((samplePoints p sampleDistance minSamples).filter
    (fun pt => worldToGrid spec.minX spec.minY spec.resolution pt = c)).length

/-! ## Thin-annular-pad detection (`_detect_thin_annular_pads_at_start`)

Embedded on exact coordinates: a shapely `Polygon` is its closed exterior
ring plus closed interior rings (coordinate lists whose last point repeats
the first, as `list(ring.coords)` yields them).  Coordinates are `ℚ`
(idealised `float`); centroid-to-vertex distances are real. -/

/-- A 2D point. -/
abbrev Pt := ℚ × ℚ

/-- Euclidean distance `Point(x, y).distance(other)`. -/
noncomputable def ptDist (a b : Pt) : ℝ :=
  Real.sqrt ((((a.1 : ℝ) - (b.1 : ℝ)) ^ 2 + ((a.2 : ℝ) - (b.2 : ℝ)) ^ 2))

/-- A polygon: closed exterior ring and closed interior rings. -/
structure RingPoly where
  exterior : List Pt
  interiors : List (List Pt)
deriving DecidableEq, Repr

/-- The consecutive vertex pairs (edges) of a closed ring. -/
def ringEdges (ring : List Pt) : List (Pt × Pt) :=
  ring.zip (ring.drop 1)

/-- Twice the signed area of a closed ring (shoelace formula). -/
def ringArea2 (ring : List Pt) : ℚ :=
  ((ringEdges ring).map (fun e => e.1.1 * e.2.2 - e.2.1 * e.1.2)).sum

/-- Six times the signed area times the centroid of a closed ring. -/
def ringCentroid6A (ring : List Pt) : Pt :=
  (((ringEdges ring).map
      (fun e => (e.1.1 + e.2.1) * (e.1.1 * e.2.2 - e.2.1 * e.1.2))).sum,
   ((ringEdges ring).map
      (fun e => (e.1.2 + e.2.2) * (e.1.1 * e.2.2 - e.2.1 * e.1.2))).sum)

/-- The area centroid of a closed ring, independent of its orientation. -/
def ringCentroid (ring : List Pt) : Pt :=
  ((ringCentroid6A ring).1 / (3 * ringArea2 ring),
   (ringCentroid6A ring).2 / (3 * ringArea2 ring))

/-- The absolute area of a closed ring. -/
def ringAreaAbs (ring : List Pt) : ℚ := |ringArea2 ring| / 2

/-- `poly.centroid`: the area centroid of the polygon with its holes
removed, i.e. the hole-area-weighted difference of ring centroids. -/
def polyCentroid (p : RingPoly) : Pt :=
  let aExt := ringAreaAbs p.exterior
  let cExt := ringCentroid p.exterior
  let aHoles := (p.interiors.map ringAreaAbs).sum
  let hx := (p.interiors.map (fun r => (ringCentroid r).1 * ringAreaAbs r)).sum
  let hy := (p.interiors.map (fun r => (ringCentroid r).2 * ringAreaAbs r)).sum
  ((cExt.1 * aExt - hx) / (aExt - aHoles), (cExt.2 * aExt - hy) / (aExt - aHoles))

/-- All coordinates of a polygon (exterior and interiors). -/
def allCoords (p : RingPoly) : List Pt :=
  p.exterior ++ p.interiors.flatten

/-- `poly.bounds`: `(min_x, min_y, max_x, max_y)`. -/
def polyBounds (p : RingPoly) : ℚ × ℚ × ℚ × ℚ :=
  match allCoords p with
  | [] => (0, 0, 0, 0)
  | q :: rest =>
    (rest.foldl (fun m r => min m r.1) q.1,
     rest.foldl (fun m r => min m r.2) q.2,
     rest.foldl (fun m r => max m r.1) q.1,
     rest.foldl (fun m r => max m r.2) q.2)

/-- `width = bounds[2] - bounds[0]` of a polygon. -/
def boundsWidth (p : RingPoly) : ℚ := (polyBounds p).2.2.1 - (polyBounds p).1

/-- `height = bounds[3] - bounds[1]` of a polygon. -/
def boundsHeight (p : RingPoly) : ℚ := (polyBounds p).2.2.2 - (polyBounds p).2.1

/-- `pad_size = max(width, height)` (fill_generator.py line 674). -/
def padSize (p : RingPoly) : ℚ := max (boundsWidth p) (boundsHeight p)

/-- `aspect_ratio = max(width, height) / (min(width, height) + 0.001)`
(line 679). -/
def aspectRatio (p : RingPoly) : ℚ :=
  max (boundsWidth p) (boundsHeight p) /
    (min (boundsWidth p) (boundsHeight p) + 1 / 1000)

/-- The average distance from the ring's vertices to a point
(`sum(distances) / len(distances)`, lines 693-697). -/
noncomputable def avgVertexDist (ring : List Pt) (c : Pt) : ℝ :=
  ((ring.map (fun q => ptDist q c)).sum) / (ring.length : ℝ)

/-- `outer_radius` of a polygon: average centroid distance of the exterior
ring's vertices. -/
noncomputable def outerRadius (p : RingPoly) : ℝ :=
  avgVertexDist p.exterior (polyCentroid p)

/-- `inner_radius` of a polygon: average centroid distance of the first
interior ring's vertices (`poly.interiors[0]`). -/
noncomputable def innerRadius (p : RingPoly) : ℝ :=
  avgVertexDist (p.interiors.headD []) (polyCentroid p)

/-- `ring_width = outer_radius - inner_radius` (line 700). -/
noncomputable def annularRingWidth (p : RingPoly) : ℝ :=
  outerRadius p - innerRadius p

/-- A synthesized circular centerline, characterised by its center and
radius (the source materialises it as `num_points` points of the circle
`centroid + mid_radius * (cos angle, sin angle)`, lines 707-724). -/
structure ThinRingCircle where
  center : Pt
  radius : ℝ

/-- `_detect_thin_annular_pads_at_start` for one polygon (lines 660-724):
require a hole, `pad_size <= 4`, `aspect_ratio <= 1.15` (i.e. `23/20`),
and flag exactly when `line_spacing < ring_width < 2 * line_spacing`,
emitting the circular centerline at `mid_radius = (outer + inner) / 2`. -/
noncomputable def detectThinAnnularPad (lineSpacing : ℚ) (p : RingPoly) :
    Option ThinRingCircle :=
  if p.interiors = [] then none
  else if 4 < padSize p then none
  else if 23 / 20 < aspectRatio p then none
  else if (lineSpacing : ℝ) < annularRingWidth p ∧
          annularRingWidth p < 2 * (lineSpacing : ℝ) then
    some ⟨polyCentroid p, (outerRadius p + innerRadius p) / 2⟩
  else none

/-! ## Isolation classification (`_is_path_isolated`)

Embedded on exact planar sets: a region is a subset of the Euclidean plane,
`path.buffer(isolation_threshold)` is the closed `isolation_threshold`-
neighbourhood of the path, `.intersection` is set intersection and `.area`
is Lebesgue measure. -/

/-- The Euclidean plane. -/
abbrev Plane := EuclideanSpace ℝ (Fin 2)

/-- `region.area`. -/
noncomputable def regionArea (s : Set Plane) : ℝ :=
  (MeasureTheory.volume s).toReal

/-- `search_zone = path.buffer(self.isolation_threshold)` (line 246). -/
def searchZone (path : Set Plane) (threshold : ℝ) : Set Plane :=
  Metric.cthickening threshold path

/-- `copper_density = copper_in_zone.area / search_zone.area` (line 253)
where `copper_in_zone = search_zone.intersection(full_geometry)`. -/
noncomputable def copperDensity (path fullGeometry : Set Plane)
    (threshold : ℝ) : ℝ :=
  regionArea (searchZone path threshold ∩ fullGeometry) /
    regionArea (searchZone path threshold)

/-- `_is_path_isolated(path, full_geometry)` (lines 232-258): when the
search zone has positive area, isolated iff the copper density is strictly
below 20 %; a zero-area search zone returns `False`. -/
def isPathIsolated (path fullGeometry : Set Plane) (threshold : ℝ) : Prop :=
  0 < regionArea (searchZone path threshold) ∧
    copperDensity path fullGeometry threshold < 1 / 5

/-- An axis-aligned square pad of side `s` centred at `c`. -/
def squarePad (c : Plane) (s : ℝ) : Set Plane :=
  {p | |p 0 - c 0| ≤ s / 2 ∧ |p 1 - c 1| ≤ s / 2}

/-! ## Concrete instances used to exercise the theorems -/

/-- A small concrete geometry backend: a region is represented by a width
`g : ℚ` of a strip, inward buffering by `d` shrinks it by `2 * d`, and it is
empty when the width is no longer positive. -/
def demoOps : GeomOps ℚ where
  isEmpty := fun g => decide (g ≤ 0)
  area := fun g => max g 0
  buffer := fun g d => g - 2 * d
  bufferIncremental := fun g d => g - 2 * d
  boundaries := fun g => [{ id := 0, length := g }]
  centerlines := fun g => [{ id := 1, length := g / 2 }]
  annularRings := fun _ => []
  difference := fun a b => a - b
  intersectSegments := fun p _ => [p]
  filledZone := fun _ _ => 0
  isolated := fun _ _ => false

/-- A diamond-shaped annulus: outer ring through `(±2, 0), (0, ±2)`, inner
ring through `(±1/2, 0), (0, ±1/2)`; both rings closed.  Every vertex is at
rational distance from the centroid `(0, 0)`, so its average radii are
exactly `2` and `1/2` and its ring width is `3/2`. -/
def diamondAnnulus : RingPoly where
  exterior := [(2, 0), (0, 2), (-2, 0), (0, -2), (2, 0)]
  interiors := [[(1/2, 0), (0, 1/2), (-1/2, 0), (0, -1/2), (1/2, 0)]]

/-- A 0.03 mm two-point path for the rasterizer. -/
def shortRasterPath : RasterPath where
  length := 3 / 100
  coords := [(0, 0), (3/100, 0)]
  interpolateAt := fun t => (t * (3/100), 0)

/-- A 10×10 grid at unit resolution with origin (0, 0). -/
def demoGridSpec : RasterGridSpec where
  gridHeight := 10
  gridWidth := 10
  minX := 0
  minY := 0
  resolution := 1

/-- Default generator options (`FillGenerator.__init__` defaults, with the
initial offset raised to 1 so that a narrow demo region vanishes under it). -/
def demoOptions : FillOptions where
  lineSpacing := 1 / 10
  initialOffset := 1
  forcedPadCenterlines := false
  forceTraceCenterlines := false
  forceTraceCenterlinesMaxThickness := 0
  doubleExposeIsolated := false
  isolationThreshold := 3

/-- Options with a 0.002 mm line spacing and forced, end-offset trace
centerlines: the configuration under which `generate_fill` emits a path
shorter than 0.01 mm. -/
def cexOptions : FillOptions where
  lineSpacing := 1 / 500
  initialOffset := 0
  forcedPadCenterlines := false
  forceTraceCenterlines := true
  forceTraceCenterlinesMaxThickness := 0
  doubleExposeIsolated := false
  isolationThreshold := 3

/-! ## Properties of the contour-offset loop -/

theorem fillLoopStep_inr_iteration {G : Type} (ops : GeomOps G) (ls io : ℚ)
    {st st' : LoopState G} (h : fillLoopStep ops ls io st = Sum.inr st') :
    st'.iteration = st.iteration + 1 ∧ st'.iteration ≤ 1000 := by
  simp only [fillLoopStep] at h
  split_ifs at h with h1 h2 h3 h4 h5 <;>
    first
      | exact Sum.noConfusion h
      | · rw [Sum.inr.injEq] at h
          subst h
          refine ⟨rfl, ?_⟩
          change st.iteration + 1 ≤ 1000
          omega

theorem fillLoopStep_paths {G : Type} (ops : GeomOps G) (ls io : ℚ)
    {st : LoopState G} {r : LoopState G ⊕ LoopState G}
    (h : fillLoopStep ops ls io st = r) :
    ∃ rest, (Sum.elim id id r).paths = st.paths ++ rest ∧
      ∀ p ∈ rest, minPathLength < p.length := by
  subst h
  simp only [fillLoopStep]
  split_ifs with h1 h2 h3 h4 h5
  all_goals simp only [Sum.elim_inl, Sum.elim_inr, id, List.append_assoc]
  · exact ⟨[], by simp⟩
  all_goals refine ⟨_, rfl, fun p hp => ?_⟩
  all_goals simp only [List.mem_append, List.mem_filter, decide_eq_true_eq] at hp
  all_goals tauto

theorem fillLoopStep_inl_exit {G : Type} (ops : GeomOps G) (ls io : ℚ)
    {st done : LoopState G} (h : fillLoopStep ops ls io st = Sum.inl done) :
    (ops.isEmpty done.geom = true ∨ done.remaining.isSome = true) ∧
      done.iteration ≤ st.iteration + 1 := by
  simp only [fillLoopStep] at h
  split_ifs at h with h1 h2 h3 h4 h5 <;>
    first
      | exact Sum.noConfusion h
      | · rw [Sum.inl.injEq] at h
          subst h
          constructor
          · first
              | exact Or.inl h1
              | exact Or.inr rfl
          · first
              | exact Nat.le_succ _
              | exact Nat.le_refl _

theorem fillLoop_congr_fuel {G : Type} (ops : GeomOps G) (ls io : ℚ) :
    ∀ (f₁ f₂ : Nat) (st : LoopState G),
      1001 - st.iteration ≤ f₁ → 1 ≤ f₁ →
      1001 - st.iteration ≤ f₂ → 1 ≤ f₂ →
      fillLoop ops ls io f₁ st = fillLoop ops ls io f₂ st := by
  intro f₁
  induction f₁ with
  | zero => intro f₂ st _ h2 _ _; omega
  | succ f ih =>
    intro f₂ st hb1 _ hb2 h2
    obtain ⟨f₂', rfl⟩ : ∃ k, f₂ = k + 1 := ⟨f₂ - 1, by omega⟩
    simp only [fillLoop]
    cases hstep : fillLoopStep ops ls io st with
    | inl done => rfl
    | inr st' =>
      obtain ⟨hit, hle⟩ := fillLoopStep_inr_iteration ops ls io hstep
      exact ih f₂' st' (by omega) (by omega) (by omega) (by omega)

theorem fillLoop_paths_suffix {G : Type} (ops : GeomOps G) (ls io : ℚ) :
    ∀ (fuel : Nat) (st : LoopState G),
      ∃ rest, (fillLoop ops ls io fuel st).paths = st.paths ++ rest ∧
        ∀ p ∈ rest, minPathLength < p.length := by
  intro fuel
  induction fuel with
  | zero => intro st; exact ⟨[], by simp [fillLoop], by simp⟩
  | succ f ih =>
    intro st
    simp only [fillLoop]
    cases hstep : fillLoopStep ops ls io st with
    | inl done =>
      have := fillLoopStep_paths ops ls io hstep
      simpa using this
    | inr st' =>
      obtain ⟨r₁, hr₁, hl₁⟩ := fillLoopStep_paths ops ls io hstep
      obtain ⟨r₂, hr₂, hl₂⟩ := ih st'
      simp only [Sum.elim_inr, id] at hr₁
      refine ⟨r₁ ++ r₂, ?_, ?_⟩
      · show (fillLoop ops ls io f st').paths = st.paths ++ (r₁ ++ r₂)
        rw [hr₂, hr₁, List.append_assoc]
      · intro p hp
        rcases List.mem_append.mp hp with hp | hp
        · exact hl₁ p hp
        · exact hl₂ p hp

theorem fillLoop_exit {G : Type} (ops : GeomOps G) (ls io : ℚ) :
    ∀ (fuel : Nat) (st : LoopState G),
      1001 - st.iteration ≤ fuel → 1 ≤ fuel →
      ops.isEmpty (fillLoop ops ls io fuel st).geom = true ∨
        (fillLoop ops ls io fuel st).remaining.isSome = true := by
  intro fuel
  induction fuel with
  | zero => intro st _ h2; omega
  | succ f ih =>
    intro st hb _
    simp only [fillLoop]
    cases hstep : fillLoopStep ops ls io st with
    | inl done => exact (fillLoopStep_inl_exit ops ls io hstep).1
    | inr st' =>
      obtain ⟨hit, hle⟩ := fillLoopStep_inr_iteration ops ls io hstep
      exact ih st' (by omega) (by omega)

theorem fillLoop_iteration_le {G : Type} (ops : GeomOps G) (ls io : ℚ) :
    ∀ (fuel : Nat) (st : LoopState G), st.iteration ≤ 1000 →
      (fillLoop ops ls io fuel st).iteration ≤ 1001 := by
  intro fuel
  induction fuel with
  | zero => intro st h; simp only [fillLoop]; omega
  | succ f ih =>
    intro st h
    simp only [fillLoop]
    cases hstep : fillLoopStep ops ls io st with
    | inl done =>
      have := (fillLoopStep_inl_exit ops ls io hstep).2
      show done.iteration ≤ 1001
      omega
    | inr st' =>
      obtain ⟨hit, hle⟩ := fillLoopStep_inr_iteration ops ls io hstep
      show (fillLoop ops ls io f st').iteration ≤ 1001
      exact ih st' (by omega)

/-- C1: for every geometry backend and every input, the contour-offset loop
of `generate_fill` is insensitive to any fuel bound of at least 1001 (it
always exits within the `iteration > 1000` cap, so `generate_fill`
terminates), its final iteration counter never exceeds 1001, and it exits
either because the buffered geometry became empty, or through the
area-fallback / iteration-cap breaks, both of which record the remaining
unfilled geometry (the cap case also reports). -/
theorem generateFill_terminates {G : Type} (ops : GeomOps G)
    (ls io : ℚ) (g : G) (paths0 contours0 : List FillPath)
    (fuel : Nat) (hfuel : 1001 ≤ fuel) :
    fillLoop ops ls io fuel (initLoopState g paths0 contours0) =
      fillLoop ops ls io 1001 (initLoopState g paths0 contours0) ∧
    (fillLoop ops ls io 1001 (initLoopState g paths0 contours0)).iteration ≤ 1001 ∧
    (ops.isEmpty (fillLoop ops ls io 1001 (initLoopState g paths0 contours0)).geom = true ∨
     (fillLoop ops ls io 1001 (initLoopState g paths0 contours0)).remaining.isSome = true) := by
  refine ⟨?_, ?_, ?_⟩
  · exact fillLoop_congr_fuel ops ls io fuel 1001 _ (by simp [initLoopState]; omega)
      (by omega) (by simp [initLoopState]) (by omega)
  · exact fillLoop_iteration_le ops ls io 1001 _ (by simp [initLoopState])
  · exact fillLoop_exit ops ls io 1001 _ (by simp [initLoopState]) (by omega)

/-- Witness for C1 at a concrete backend and fuel 2000. -/
theorem generateFill_terminates_w :
    1001 ≤ 2000 ∧
    fillLoop demoOps (1/10) (1/20) 2000 (initLoopState (5 : ℚ) [] []) =
      fillLoop demoOps (1/10) (1/20) 1001 (initLoopState (5 : ℚ) [] []) :=
  ⟨by norm_num,
   (generateFill_terminates demoOps (1/10) (1/20) 5 [] [] 2000 (by norm_num)).1⟩

/-! ## Path-length guarantees of the generator branches -/


theorem forcedTraceCenterlines_length (ls maxTh : ℚ) (offc : Bool)
    (tcs : List TraceElement) (hls : 1 / 250 < ls) :
    ∀ p ∈ forcedTraceCenterlines ls maxTh offc tcs, minPathLength ≤ p.length := by
  intro p hp
  simp only [forcedTraceCenterlines] at hp
  split_ifs at hp with hoffc
  · simp only [List.mem_filterMap] at hp
    obtain ⟨line, _, hline⟩ := hp
    cases hoff : offsetLineFromEnds line ls with
    | none =>
      rw [hoff, Option.none_bind] at hline
      exact absurd hline (by simp)
    | some trimmed =>
      rw [hoff, Option.some_bind] at hline
      split_ifs at hline with hkeep
      rw [Option.some.inj hline] at hkeep
      calc minPathLength = (1 / 250 : ℚ) * (5 / 2) := by norm_num [minPathLength]
        _ ≤ ls * (5 / 2) := by nlinarith
        _ ≤ p.length := hkeep
  · simp only [List.mem_filter, decide_eq_true_eq] at hp
    exact le_of_lt hp.2

theorem clipCenterlinesToGeometry_length {G : Type} (ops : GeomOps G)
    (centerlines : List FillPath) (geometry : G) :
    ∀ p ∈ clipCenterlinesToGeometry ops centerlines geometry,
      minPathLength ≤ p.length := by
  intro p hp
  simp only [clipCenterlinesToGeometry, List.mem_flatMap, List.mem_filter,
    decide_eq_true_eq] at hp
  obtain ⟨line, _, _, hlen⟩ := hp
  exact le_of_lt hlen

theorem clipCenterlinesAvoidingFilledZones_length {G : Type} (ops : GeomOps G)
    (ls : ℚ) (centerlines : List FillPath) (orig filled : G) (offsetEnds : Bool)
    (hls : 1 / 250 < ls) :
    ∀ p ∈ clipCenterlinesAvoidingFilledZones ops ls centerlines orig filled offsetEnds,
      minPathLength ≤ p.length := by
  intro p hp
  simp only [clipCenterlinesAvoidingFilledZones, List.mem_flatMap] at hp
  obtain ⟨line, _, hline⟩ := hp
  split_ifs at hline with hempty hoffc
  · exact absurd hline (List.not_mem_nil p)
  · simp only [List.mem_filterMap] at hline
    obtain ⟨seg, _, hseg⟩ := hline
    cases hoff : offsetLineFromEnds seg ls with
    | none =>
      rw [hoff, Option.none_bind] at hseg
      exact absurd hseg (by simp)
    | some trimmed =>
      rw [hoff, Option.some_bind] at hseg
      split_ifs at hseg with hkeep
      rw [Option.some.inj hseg] at hkeep
      calc minPathLength = (1 / 250 : ℚ) * (5 / 2) := by norm_num [minPathLength]
        _ ≤ ls * (5 / 2) := by nlinarith
        _ ≤ p.length := hkeep
  · simp only [List.mem_filterMap] at hline
    obtain ⟨seg, _, hseg⟩ := hline
    split_ifs at hseg with hkeep
    rw [Option.some.inj hseg] at hkeep
    exact hkeep

theorem traceCenterlinePass_length {G : Type} (ops : GeomOps G)
    (opt : FillOptions) (geometry : G) (tcs : List TraceElement) (offc : Bool)
    (contours : List FillPath) (hls : 1 / 250 < opt.lineSpacing) :
    ∀ p ∈ traceCenterlinePass ops opt geometry tcs offc contours,
      minPathLength ≤ p.length := by
  intro p hp
  simp only [traceCenterlinePass] at hp
  split_ifs at hp with h1 h2 h3 h4
  all_goals first
    | exact absurd hp (List.not_mem_nil p)
    | exact forcedTraceCenterlines_length _ _ _ _ hls p hp
    | exact clipCenterlinesToGeometry_length _ _ _ p hp
    | exact clipCenterlinesAvoidingFilledZones_length _ _ _ _ _ _ hls p hp

theorem generateFillPaths_length {G : Type} (ops : GeomOps G)
    (opt : FillOptions) (geometry : G) (tcs : List TraceElement) (offc : Bool)
    (fpp : List FillPath)
    (hrings : ∀ q ∈ ops.annularRings geometry, minPathLength ≤ q.length)
    (hfpp : ∀ q ∈ fpp, minPathLength ≤ q.length)
    (hls : 1 / 250 < opt.lineSpacing) :
    ∀ p ∈ generateFillPaths ops opt geometry tcs offc fpp,
      minPathLength ≤ p.length := by
  intro p hp
  simp only [generateFillPaths, List.mem_append] at hp
  rcases hp with hp | hp
  · obtain ⟨rest, hrest, hlong⟩ := fillLoop_paths_suffix ops opt.lineSpacing
      opt.initialOffset 1001
      (initLoopState geometry (initialFillPaths ops opt geometry fpp)
        (initialFillPaths ops opt geometry fpp))
    unfold fillLoopResult at hp
    rw [hrest] at hp
    simp only [initLoopState, List.mem_append] at hp
    rcases hp with hp | hp
    · simp only [initialFillPaths, List.mem_append] at hp
      rcases hp with hp | hp
      · split_ifs at hp
        · exact hfpp p hp
        · exact absurd hp (List.not_mem_nil p)
      · exact hrings p hp
    · exact le_of_lt (hlong p hp)
  · exact traceCenterlinePass_length ops opt geometry tcs offc _ hls p hp

/-- C4 (amended): with every thin-annular-ring circle and every forced pad
centerline itself at least 0.01 mm long (those two path families carry no
length filter of their own) and a line spacing above 0.004 mm, every path
emitted by `generate_fill` has length at least 0.01 mm: contour boundaries,
loop-fallback centerlines and unclipped forced trace centerlines are kept
only when strictly longer than 0.01 mm, clipped trace-centerline segments
when at least 0.01 mm, and end-offset trace centerlines when at least
2.5 × lineSpacing (which exceeds 0.01 mm exactly when the line spacing
exceeds 0.004 mm). -/
theorem generateFill_path_lengths {G : Type} (ops : GeomOps G)
    (opt : FillOptions) (geometry : G) (tcs : List TraceElement) (offc : Bool)
    (fpp : List FillPath)
    (hrings : ∀ q ∈ ops.annularRings geometry, minPathLength ≤ q.length)
    (hfpp : ∀ q ∈ fpp, minPathLength ≤ q.length)
    (hls : 1 / 250 < opt.lineSpacing) :
    ∀ p ∈ (generateFill ops opt geometry tcs offc fpp).allPaths,
      minPathLength ≤ p.length := by
  intro p hp
  have hall := generateFillPaths_length ops opt geometry tcs offc fpp hrings hfpp hls
  simp only [generateFill] at hp
  split_ifs at hp with hsplit
  · simp only [FillResult.allPaths, List.mem_append, List.mem_filter] at hp
    rcases hp with ⟨hp, _⟩ | ⟨hp, _⟩ <;> exact hall p hp
  · simp only [FillResult.allPaths] at hp
    exact hall p hp

/-- Witness for C4 (amended) at a concrete backend. -/
theorem generateFill_path_lengths_w :
    (∀ q ∈ demoOps.annularRings (5 : ℚ), minPathLength ≤ q.length) ∧
    (1 / 250 : ℚ) < demoOptions.lineSpacing ∧
    ∀ p ∈ (generateFill demoOps demoOptions 5 [] false []).allPaths,
      minPathLength ≤ p.length :=
  ⟨by simp [demoOps], by norm_num [demoOptions],
   generateFill_path_lengths demoOps demoOptions 5 [] false []
     (by simp [demoOps]) (by simp) (by norm_num [demoOptions])⟩

/-- C4 counterexample: with a 0.002 mm line spacing, forced trace
centerlines and end offsets enabled, `generate_fill` on a 0.012 mm trace
emits a 0.008 mm path: the end-offset branch keeps any trimmed centerline of
length at least `2.5 × lineSpacing = 0.005 mm`, with no 0.01 mm filter. -/
theorem generateFill_emits_short_path :
    ∃ p ∈ (generateFill demoOps cexOptions 0
        [{ line := { id := 7, length := 3/250 }, width := 1 }] true []).allPaths,
      ¬ minPathLength < p.length := by
  refine ⟨{ id := 7, length := 1/125 }, ?_, by norm_num [minPathLength]⟩
  norm_num [generateFill, generateFillPaths, fillLoopResult, initLoopState,
    initialFillPaths, fillLoop, fillLoopStep, traceCenterlinePass,
    forcedTraceCenterlines, offsetLineFromEnds, FillResult.allPaths,
    demoOps, cexOptions, minPathLength]

/-- C9: `generate_fill` returns the `{'normal': ..., 'isolated': ...}`
dictionary exactly when `double_expose_isolated` is set and
`isolation_threshold > 0`; otherwise (including `double_expose_isolated`
set with a non-positive threshold) it returns the flat path list. -/
theorem generateFill_split_iff {G : Type} (ops : GeomOps G) (opt : FillOptions)
    (geometry : G) (tcs : List TraceElement) (offc : Bool) (fpp : List FillPath) :
    (∃ n i, generateFill ops opt geometry tcs offc fpp = FillResult.split n i) ↔
      (opt.doubleExposeIsolated = true ∧ 0 < opt.isolationThreshold) := by
  unfold generateFill
  split_ifs with h
  · exact ⟨fun _ => h, fun _ => ⟨_, _, rfl⟩⟩
  · constructor
    · rintro ⟨n, i, heq⟩
      cases heq
    · intro hh
      exact absurd hh h

theorem fillLoopStep_fallback {G : Type} (ops : GeomOps G) (ls io : ℚ)
    {st : LoopState G} {p : FillPath}
    (hne : ops.isEmpty st.geom = false) (h0 : st.iteration = 0) (hio : 0 < io)
    (hoff : ops.isEmpty (ops.buffer st.geom io) = true)
    (hp : p ∈ ops.boundaries st.geom) (hlen : minPathLength < p.length) :
    p ∈ (Sum.elim id id (fillLoopStep ops ls io st)).paths := by
  have hc1 : ¬ (ops.isEmpty st.geom = true) := by simp [hne]
  have hc2 : st.iteration = 0 ∧ 0 < io := ⟨h0, hio⟩
  have hpmem : p ∈ st.paths ++
      (ops.boundaries st.geom).filter (fun q => minPathLength < q.length) :=
    List.mem_append.mpr (Or.inr (List.mem_filter.mpr ⟨hp, by simpa using hlen⟩))
  unfold fillLoopStep
  rw [if_neg hc1, if_pos hc2, if_pos hoff]
  dsimp only
  split_ifs with h1 h2
  · exact List.mem_append.mpr (Or.inl hpmem)
  · exact hpmem
  · exact hpmem

theorem fillLoop_fallback_mem {G : Type} (ops : GeomOps G) (ls io : ℚ)
    (st : LoopState G) (fuel : Nat) (p : FillPath)
    (hfuel : 1 ≤ fuel)
    (hne : ops.isEmpty st.geom = false) (h0 : st.iteration = 0) (hio : 0 < io)
    (hoff : ops.isEmpty (ops.buffer st.geom io) = true)
    (hp : p ∈ ops.boundaries st.geom) (hlen : minPathLength < p.length) :
    p ∈ (fillLoop ops ls io fuel st).paths := by
  obtain ⟨f, rfl⟩ : ∃ k, fuel = k + 1 := ⟨fuel - 1, by omega⟩
  have hstepmem := fillLoopStep_fallback ops ls io hne h0 hio hoff hp hlen
  simp only [fillLoop]
  cases hstep : fillLoopStep ops ls io st with
  | inl done =>
    rw [hstep] at hstepmem
    simpa using hstepmem
  | inr st' =>
    rw [hstep] at hstepmem
    simp only [Sum.elim_inr, id] at hstepmem
    obtain ⟨rest, hrest, _⟩ := fillLoop_paths_suffix ops ls io f st'
    show p ∈ (fillLoop ops ls io f st').paths
    rw [hrest]
    exact List.mem_append.mpr (Or.inl hstepmem)

/-- C10: when the first contour iteration's inward buffering by
`initial_offset` empties the geometry (a non-empty region narrower than
twice the initial offset), `generate_fill` emits the boundaries of the
original un-offset region instead, so every boundary of the input region
longer than 0.01 mm appears among the generated paths. -/
theorem generateFill_initial_offset_fallback {G : Type} (ops : GeomOps G)
    (opt : FillOptions) (geometry : G) (tcs : List TraceElement) (offc : Bool)
    (fpp : List FillPath) (p : FillPath)
    (hne : ops.isEmpty geometry = false)
    (hio : 0 < opt.initialOffset)
    (hoff : ops.isEmpty (ops.buffer geometry opt.initialOffset) = true)
    (hp : p ∈ ops.boundaries geometry)
    (hlen : minPathLength < p.length) :
    p ∈ (generateFill ops opt geometry tcs offc fpp).allPaths := by
  have hmem : p ∈ (fillLoopResult ops opt geometry fpp).paths := by
    unfold fillLoopResult
    exact fillLoop_fallback_mem ops opt.lineSpacing opt.initialOffset _ 1001 p
      (by norm_num) hne rfl hio hoff hp hlen
  have hmem2 : p ∈ generateFillPaths ops opt geometry tcs offc fpp := by
    simp only [generateFillPaths, List.mem_append]
    exact Or.inl hmem
  simp only [generateFill]
  split_ifs with hsplit
  · simp only [FillResult.allPaths, List.mem_append, List.mem_filter]
    by_cases hiso : ops.isolated p geometry = true
    · exact Or.inr ⟨hmem2, by simp [hiso]⟩
    · exact Or.inl ⟨hmem2, by simp [hiso]⟩
  · simpa [FillResult.allPaths] using hmem2

/-- Witness for C10 at a concrete backend: a strip of width 1/2 vanishes
under an initial offset of 1, and its boundary is still emitted. -/
theorem generateFill_initial_offset_fallback_w :
    (demoOps.isEmpty (1/2 : ℚ) = false ∧
     0 < demoOptions.initialOffset ∧
     demoOps.isEmpty (demoOps.buffer (1/2) demoOptions.initialOffset) = true ∧
     ({ id := 0, length := 1/2 } : FillPath) ∈ demoOps.boundaries (1/2) ∧
     minPathLength < ({ id := 0, length := 1/2 } : FillPath).length) ∧
    ({ id := 0, length := 1/2 } : FillPath) ∈
      (generateFill demoOps demoOptions (1/2) [] false []).allPaths :=
  ⟨⟨by norm_num [demoOps], by norm_num [demoOptions],
    by norm_num [demoOps, demoOptions], by simp [demoOps],
    by norm_num [minPathLength]⟩,
   generateFill_initial_offset_fallback demoOps demoOptions (1/2) [] false []
     { id := 0, length := 1/2 } (by norm_num [demoOps])
     (by norm_num [demoOptions]) (by norm_num [demoOps, demoOptions])
     (by simp [demoOps]) (by norm_num [minPathLength])⟩

/-! ## The exposure classifier -/

/-- C5: when no trace element passes the minimum-length filter (in
particular for the empty trace list), `identify_underexposed_traces` does
not return empty results: `np.percentile` raises on the empty value array
and the exception propagates.  (The spec's error-handling design asks for
empty results instead; the code omits the empty-input guard, so this is the
code deviating from the documented design, not a spec error.) -/
theorem identifyUnderexposed_empty_raises {L : Type}
    (lineLength ambientBloom : L → ℚ) (ts : List (BloomTrace L))
    (p minLen : ℚ)
    (hfilt : ts.filter (fun t => minLen ≤ lineLength t.line) = []) :
    ∃ e, identifyUnderexposedTraces lineLength ambientBloom ts p minLen =
      .error e := by
  have hperc : ∃ e, npPercentile ([] : List ℚ) p = .error e := by
    unfold npPercentile
    split_ifs with h1 h2
    · exact ⟨_, rfl⟩
    · exact ⟨_, rfl⟩
    · exact absurd rfl h2
  obtain ⟨e, he⟩ := hperc
  refine ⟨e, ?_⟩
  unfold identifyUnderexposedTraces
  rw [hfilt]
  simp only [List.map_nil]
  rw [he]

/-- Witness for C5: the empty trace list. -/
theorem identifyUnderexposed_empty_raises_w :
    (([] : List (BloomTrace Nat)).filter
      (fun t => (0 : ℚ) ≤ (fun _ : Nat => (0 : ℚ)) t.line) = []) ∧
    ∃ e, identifyUnderexposedTraces (fun _ : Nat => (0 : ℚ)) (fun _ => 0)
      [] 30 0 = .error e :=
  ⟨rfl, identifyUnderexposed_empty_raises _ _ [] 30 0 rfl⟩

/-- C6: with exactly one trace passing the minimum-length filter, the
percentile threshold is that trace's own ambient-bloom value (a single data
point), the strict-below comparison classifies the trace as normal, and no
error is raised. -/
theorem identifyUnderexposed_single {L : Type}
    (lineLength ambientBloom : L → ℚ) (ts : List (BloomTrace L))
    (t : BloomTrace L) (p minLen : ℚ)
    (hp0 : 0 ≤ p) (hp1 : p ≤ 100)
    (hfilt : ts.filter (fun t => minLen ≤ lineLength t.line) = [t]) :
    npPercentile [ambientBloom t.line] p = .ok (ambientBloom t.line) ∧
    identifyUnderexposedTraces lineLength ambientBloom ts p minLen =
      .ok ([t], []) := by
  have hperc : npPercentile [ambientBloom t.line] p =
      .ok (ambientBloom t.line) := by
    unfold npPercentile
    rw [if_neg (by push_neg; exact ⟨hp0, hp1⟩), if_neg (by simp)]
    unfold linInterp percentileRank
    norm_num [List.insertionSort, List.orderedInsert]
  refine ⟨hperc, ?_⟩
  unfold identifyUnderexposedTraces
  rw [hfilt]
  simp only [List.map_cons, List.map_nil]
  rw [hperc]
  simp

/-- Witness for C6: a single 1 mm trace with ambient bloom 5 at the default
30th percentile. -/
theorem identifyUnderexposed_single_w :
    ((0 : ℚ) ≤ 30 ∧ (30 : ℚ) ≤ 100) ∧
    ([({ line := 0, width := 1 } : BloomTrace Nat)].filter
      (fun t => (0 : ℚ) ≤ (fun _ : Nat => (1 : ℚ)) t.line) =
        [{ line := 0, width := 1 }]) ∧
    identifyUnderexposedTraces (fun _ : Nat => (1 : ℚ)) (fun _ => 5)
      [{ line := 0, width := 1 }] 30 0 = .ok ([{ line := 0, width := 1 }], []) :=
  ⟨⟨by norm_num, by norm_num⟩, by simp,
   (identifyUnderexposed_single (fun _ : Nat => (1 : ℚ)) (fun _ => 5)
     [{ line := 0, width := 1 }] { line := 0, width := 1 } 30 0
     (by norm_num) (by norm_num) (by simp)).2⟩

/-- C3 counterexample: two analyzed traces with equal ambient bloom at the
80th percentile.  The percentile threshold equals the common value, the
strict-below comparison classifies neither trace as underexposed, and the
underexposed count 0 differs from `round(80/100 × 2) = 2` by more than one
element. -/
theorem identifyUnderexposed_count_cex :
    ∃ nrm und,
      identifyUnderexposedTraces (fun _ : Nat => (1 : ℚ)) (fun _ => 5)
        [{ line := 0, width := 1 }, { line := 1, width := 1 }] 80 0 =
          .ok (nrm, und) ∧
      ¬ |(und.length : ℤ) - round ((80 : ℚ) / 100 *
          (([({ line := 0, width := 1 } : BloomTrace Nat),
             { line := 1, width := 1 }].filter
            (fun t => (0 : ℚ) ≤ (fun _ : Nat => (1 : ℚ)) t.line)).length : ℚ))|
        ≤ 1 := by
  have hperc : npPercentile [(5 : ℚ), 5] 80 = .ok 5 := by
    unfold npPercentile
    rw [if_neg (by norm_num), if_neg (by simp)]
    unfold linInterp percentileRank
    norm_num [List.insertionSort, List.orderedInsert]
  refine ⟨[{ line := 0, width := 1 }, { line := 1, width := 1 }], [], ?_, ?_⟩
  · unfold identifyUnderexposedTraces
    norm_num
    rw [hperc]
    simp
  · norm_num
    rw [show round ((8 : ℚ) / 5) = 2 by
      rw [round_eq, show (8 : ℚ) / 5 + 1 / 2 = 21 / 10 by norm_num,
        Int.floor_eq_iff]
      constructor <;> norm_num]
    norm_num

theorem getD_eq_get (l : List ℚ) (d : ℚ) (j : Nat) (h : j < l.length) :
    l.getD j d = l.get ⟨j, h⟩ := by
  simp [List.getD_eq_getElem?_getD, List.getElem?_eq_getElem h]

theorem countP_eq_of_bounds (c : ℚ) :
    ∀ (s : List ℚ) (k : Nat), k ≤ s.length →
      (∀ (j : Nat) (hj : j < s.length), j < k → s.get ⟨j, hj⟩ < c) →
      (∀ (j : Nat) (hj : j < s.length), k ≤ j → ¬ s.get ⟨j, hj⟩ < c) →
      s.countP (fun x => decide (x < c)) = k := by
  intro s
  induction s with
  | nil =>
    intro k hk _ _
    simp only [List.countP_nil]
    simp only [List.length_nil, Nat.le_zero] at hk
    omega
  | cons x t ih =>
    intro k hk h1 h2
    simp only [List.length_cons] at hk
    cases k with
    | zero =>
      have hx : ¬ x < c := h2 0 (Nat.succ_pos _) (Nat.le_refl 0)
      rw [List.countP_cons_of_neg _ _ (by simpa using hx)]
      exact ih 0 (Nat.zero_le _)
        (fun j hj hj0 => absurd hj0 (Nat.not_lt_zero j))
        (fun j hj _ => h2 (j + 1) (Nat.succ_lt_succ hj) (Nat.zero_le _))
    | succ k' =>
      have hx : x < c := h1 0 (Nat.succ_pos _) (Nat.succ_pos k')
      rw [List.countP_cons_of_pos _ _ (by simpa using hx)]
      have ht := ih k' (by omega)
        (fun j hj hjk => h1 (j + 1) (Nat.succ_lt_succ hj) (Nat.succ_lt_succ hjk))
        (fun j hj hjk => h2 (j + 1) (Nat.succ_lt_succ hj) (Nat.succ_le_succ hjk))
      omega

theorem sorted_lt_of_sorted_le {s : List ℚ} (hs : s.Sorted (· ≤ ·))
    (hnd : s.Nodup) : s.Sorted (· < ·) := by
  induction s with
  | nil => exact List.sorted_nil
  | cons x t ih =>
    rw [List.sorted_cons] at hs ⊢
    rw [List.nodup_cons] at hnd
    refine ⟨fun y hy => lt_of_le_of_ne (hs.1 y hy) ?_, ih hs.2 hnd.2⟩
    intro he
    exact hnd.1 (he ▸ hy)

/-- On a strictly sorted nonempty list of values, the number of values
strictly below the linearly interpolated `q`-th percentile is exactly
`⌈q/100 * (n-1)⌉`. -/
theorem countP_lt_linInterp (s : List ℚ) (q : ℚ)
    (hsort : s.Sorted (· < ·)) (hne : s ≠ [])
    (hq0 : 0 ≤ q) (hq1 : q ≤ 100) :
    (s.countP (fun x => decide (x < linInterp s (percentileRank s.length q))) : ℤ) =
      ⌈percentileRank s.length q⌉ := by
  have hn : 0 < s.length := List.length_pos.mpr hne
  have hn1 : (1 : ℚ) ≤ (s.length : ℚ) := by exact_mod_cast hn
  obtain ⟨a, ha⟩ : ∃ a, percentileRank s.length q = a := ⟨_, rfl⟩
  rw [ha]
  have hq100 : q / 100 ≤ 1 := by
    rw [div_le_one (by norm_num : (0 : ℚ) < 100)]
    exact hq1
  have hqd0 : (0 : ℚ) ≤ q / 100 := div_nonneg hq0 (by norm_num)
  have ha0 : 0 ≤ a := by
    rw [← ha]; unfold percentileRank
    nlinarith
  have haN : a ≤ (s.length : ℚ) - 1 := by
    rw [← ha]; unfold percentileRank
    nlinarith
  have hfl0 : 0 ≤ ⌊a⌋ := Int.floor_nonneg.mpr ha0
  have hiz : ((⌊a⌋.toNat : ℕ) : ℤ) = ⌊a⌋ := Int.toNat_of_nonneg hfl0
  have hflle : ⌊a⌋ ≤ (s.length : ℤ) - 1 := by
    have h2 := Int.floor_le_floor haN
    rwa [show ((s.length : ℚ) - 1) = (((s.length : ℤ) - 1 : ℤ) : ℚ) by
      push_cast; ring, Int.floor_intCast] at h2
  have hilt : ⌊a⌋.toNat < s.length := by omega
  have hpw := List.pairwise_iff_get.mp hsort
  by_cases hγ : a = (⌊a⌋ : ℚ)
  · -- the rank is an integer: the threshold is the order statistic itself
    have hthr : linInterp s a = s.get ⟨⌊a⌋.toNat, hilt⟩ := by
      simp only [linInterp]
      rw [getD_eq_get s 0 ⌊a⌋.toNat hilt, sub_eq_zero_of_eq hγ]
      ring
    rw [hthr,
      countP_eq_of_bounds _ s ⌊a⌋.toNat (le_of_lt hilt)
        (fun j hj hji => hpw ⟨j, hj⟩ ⟨⌊a⌋.toNat, hilt⟩ hji)
        (fun j hj hij => by
          rcases Nat.lt_or_ge ⌊a⌋.toNat j with hlt | hge
          · exact asymm (hpw ⟨⌊a⌋.toNat, hilt⟩ ⟨j, hj⟩ hlt)
          · have : j = ⌊a⌋.toNat := by omega
            subst this
            exact lt_irrefl _)]
    rw [hiz]
    conv_rhs => rw [hγ, Int.ceil_intCast]
  · -- the rank falls strictly between two order statistics
    have hlt : (⌊a⌋ : ℚ) < a := lt_of_le_of_ne (Int.floor_le a) (fun he => hγ he.symm)
    have hflt : ⌊a⌋ < (s.length : ℤ) - 1 := by
      rcases eq_or_lt_of_le hflle with heq | h
      · exfalso
        apply hγ
        have hle2 : a ≤ (⌊a⌋ : ℚ) := by
          rw [heq]
          push_cast
          linarith
        linarith [Int.floor_le a]
      · exact h
    have hi1lt : ⌊a⌋.toNat + 1 < s.length := by omega
    have hthr : linInterp s a = s.get ⟨⌊a⌋.toNat, hilt⟩ + (a - ⌊a⌋) *
        (s.get ⟨⌊a⌋.toNat + 1, hi1lt⟩ - s.get ⟨⌊a⌋.toNat, hilt⟩) := by
      simp only [linInterp]
      rw [getD_eq_get s 0 ⌊a⌋.toNat hilt, getD_eq_get s _ _ hi1lt]
    have hΔ : s.get ⟨⌊a⌋.toNat, hilt⟩ < s.get ⟨⌊a⌋.toNat + 1, hi1lt⟩ :=
      hpw ⟨⌊a⌋.toNat, hilt⟩ ⟨⌊a⌋.toNat + 1, hi1lt⟩ (Nat.lt_succ_self _)
    have hγ1 : a - ⌊a⌋ < 1 := by linarith [Int.lt_floor_add_one a]
    have hγpos : (0 : ℚ) < a - ⌊a⌋ := by linarith
    have hthr_gt : s.get ⟨⌊a⌋.toNat, hilt⟩ < linInterp s a := by
      rw [hthr]; nlinarith
    have hthr_lt : linInterp s a < s.get ⟨⌊a⌋.toNat + 1, hi1lt⟩ := by
      rw [hthr]; nlinarith
    rw [countP_eq_of_bounds _ s (⌊a⌋.toNat + 1) hi1lt.le
      (fun j hj hji => by
        rcases Nat.lt_or_ge j ⌊a⌋.toNat with hlt2 | hge
        · exact lt_trans (hpw ⟨j, hj⟩ ⟨⌊a⌋.toNat, hilt⟩ hlt2) hthr_gt
        · have : j = ⌊a⌋.toNat := by omega
          subst this
          exact hthr_gt)
      (fun j hj hij => by
        rcases Nat.lt_or_ge (⌊a⌋.toNat + 1) j with hlt2 | hge
        · exact not_lt_of_gt (lt_trans hthr_lt
            (hpw ⟨⌊a⌋.toNat + 1, hi1lt⟩ ⟨j, hj⟩ hlt2))
        · have : j = ⌊a⌋.toNat + 1 := by omega
          subst this
          exact not_lt_of_gt hthr_lt)]
    have hceil1 : ⌈a⌉ ≤ ⌊a⌋ + 1 := Int.ceil_le_floor_add_one a
    have hceil2 : ⌊a⌋ + 1 ≤ ⌈a⌉ := by
      have h3 : (⌊a⌋ : ℚ) < (⌈a⌉ : ℚ) := lt_of_lt_of_le hlt (Int.le_ceil a)
      have h4 : ⌊a⌋ < ⌈a⌉ := by exact_mod_cast h3
      omega
    push_cast [hiz]
    omega

/-- The distance between `⌈a⌉` and `round b` is at most one whenever
`0 ≤ a ≤ b ≤ a + 1`. -/
theorem ceil_round_close (a b : ℚ) (hab : a ≤ b) (hba : b ≤ a + 1) :
    |⌈a⌉ - round b| ≤ 1 := by
  rw [round_eq, abs_le]
  have hup : ⌊b + 1 / 2⌋ ≤ ⌈a⌉ + 1 := by
    have h1 : b + 1 / 2 < ((⌈a⌉ + 2 : ℤ) : ℚ) := by
      have h2 := Int.le_ceil a
      push_cast
      linarith
    have h3 := Int.floor_lt.mpr h1
    omega
  have hlo : ⌈a⌉ - 1 ≤ ⌊b + 1 / 2⌋ := by
    have h1 : ((⌈a⌉ - 1 : ℤ) : ℚ) ≤ b + 1 / 2 := by
      have h2 := Int.ceil_lt_add_one a
      push_cast
      linarith
    have h3 := Int.le_floor.mpr h1
    omega
  omega

/-- C3 (amended): for every nonempty list of analyzed traces whose
ambient-bloom values are pairwise distinct and every percentile
`0 ≤ p ≤ 100`, `identify_underexposed_traces` returns an underexposed list
whose element count is within one of `round(p/100 × totalTraces)`, where
`totalTraces` counts the traces passing the minimum-length filter; a trace
is underexposed exactly when its ambient bloom is strictly below the `p`-th
percentile of the analyzed traces' ambient-bloom values.  (With tied
ambient-bloom values the count can differ by more than one, as the
counterexample shows, because no tied value is strictly below the
threshold.) -/
theorem identifyUnderexposed_percentile_count {L : Type}
    (lineLength ambientBloom : L → ℚ) (ts : List (BloomTrace L)) (p minLen : ℚ)
    (hp0 : 0 ≤ p) (hp1 : p ≤ 100)
    (hne : ts.filter (fun t => minLen ≤ lineLength t.line) ≠ [])
    (hnodup : ((ts.filter (fun t => minLen ≤ lineLength t.line)).map
      (fun t => ambientBloom t.line)).Nodup) :
    ∃ nrm und,
      identifyUnderexposedTraces lineLength ambientBloom ts p minLen =
        .ok (nrm, und) ∧
      |(und.length : ℤ) - round (p / 100 *
        ((ts.filter (fun t => minLen ≤ lineLength t.line)).length : ℚ))| ≤ 1 := by
  obtain ⟨m, hm⟩ : ∃ m, ts.filter (fun t => minLen ≤ lineLength t.line) = m :=
    ⟨_, rfl⟩
  rw [hm] at hne hnodup
  rw [hm]
  have hmlen : 0 < m.length := List.length_pos.mpr hne
  unfold identifyUnderexposedTraces
  rw [hm]
  have hvs : m.map (fun t => ambientBloom t.line) ≠ [] := by
    simpa using hne
  unfold npPercentile
  dsimp only
  rw [if_neg (by push_neg; exact ⟨hp0, hp1⟩), if_neg hvs]
  refine ⟨_, _, rfl, ?_⟩
  have hperm := List.perm_insertionSort (· ≤ ·)
    (m.map (fun t => ambientBloom t.line))
  have hsle : ((m.map (fun t => ambientBloom t.line)).insertionSort
      (· ≤ ·)).Sorted (· ≤ ·) :=
    List.sorted_insertionSort (· ≤ ·) _
  have hsnd : ((m.map (fun t => ambientBloom t.line)).insertionSort
      (· ≤ ·)).Nodup := hperm.nodup_iff.mpr hnodup
  have hsort := sorted_lt_of_sorted_le hsle hsnd
  have hslen : ((m.map (fun t => ambientBloom t.line)).insertionSort
      (· ≤ ·)).length = m.length := by
    rw [hperm.length_eq, List.length_map]
  have hsne : ((m.map (fun t => ambientBloom t.line)).insertionSort
      (· ≤ ·)) ≠ [] := by
    intro hcontra
    rw [hcontra] at hslen
    simp at hslen
    omega
  have hmaplen : (m.map (fun t => ambientBloom t.line)).length = m.length :=
    List.length_map _ _
  have hcount : ((m.filter (fun t => ambientBloom t.line <
      linInterp ((m.map (fun t => ambientBloom t.line)).insertionSort (· ≤ ·))
        (percentileRank (m.map (fun t => ambientBloom t.line)).length p))).length : ℤ) =
      ⌈percentileRank m.length p⌉ := by
    rw [← List.countP_eq_length_filter]
    rw [show (m.countP (fun t => decide (ambientBloom t.line <
        linInterp ((m.map (fun t => ambientBloom t.line)).insertionSort (· ≤ ·))
          (percentileRank (m.map (fun t => ambientBloom t.line)).length p)))) =
      ((m.map (fun t => ambientBloom t.line)).countP (fun x => decide (x <
        linInterp ((m.map (fun t => ambientBloom t.line)).insertionSort (· ≤ ·))
          (percentileRank (m.map (fun t => ambientBloom t.line)).length p)))) by
      rw [List.countP_map]
      rfl]
    rw [← hperm.countP_eq]
    rw [show (m.map (fun t => ambientBloom t.line)).length =
      ((m.map (fun t => ambientBloom t.line)).insertionSort (· ≤ ·)).length by
      rw [hslen, hmaplen]]
    rw [countP_lt_linInterp _ p hsort hsne hp0 hp1, hslen]
  rw [hcount]
  have hmlen1 : (1 : ℚ) ≤ (m.length : ℚ) := by exact_mod_cast hmlen
  have hq100 : p / 100 ≤ 1 := by
    rw [div_le_one (by norm_num : (0 : ℚ) < 100)]
    exact hp1
  have hqd0 : (0 : ℚ) ≤ p / 100 := div_nonneg hp0 (by norm_num)
  apply ceil_round_close
  · unfold percentileRank
    nlinarith
  · unfold percentileRank
    nlinarith

/-- Witness for C3 (amended): two traces with distinct ambient-bloom values
at the default 30th percentile. -/
theorem identifyUnderexposed_percentile_count_w :
    ((0 : ℚ) ≤ 30 ∧ (30 : ℚ) ≤ 100) ∧
    (([({ line := 0, width := 1 } : BloomTrace Nat),
       { line := 1, width := 1 }].filter
      (fun t => (0 : ℚ) ≤ (fun _ : Nat => (1 : ℚ)) t.line)) ≠ []) ∧
    ∃ nrm und,
      identifyUnderexposedTraces (fun _ : Nat => (1 : ℚ)) (fun k => (k : ℚ))
        [{ line := 0, width := 1 }, { line := 1, width := 1 }] 30 0 =
          .ok (nrm, und) ∧
      |(und.length : ℤ) - round ((30 : ℚ) / 100 *
        (([({ line := 0, width := 1 } : BloomTrace Nat),
           { line := 1, width := 1 }].filter
          (fun t => (0 : ℚ) ≤ (fun _ : Nat => (1 : ℚ)) t.line)).length : ℚ))| ≤ 1 :=
  ⟨⟨by norm_num, by norm_num⟩, by simp,
   identifyUnderexposed_percentile_count (fun _ : Nat => (1 : ℚ))
     (fun k => (k : ℚ)) [{ line := 0, width := 1 }, { line := 1, width := 1 }]
     30 0 (by norm_num) (by norm_num) (by simp) (by simp)⟩

/-! ## The rasterizer -/

theorem foldl_addHit (spec : RasterGridSpec) (c : ℤ × ℤ) (hc : inGrid spec c) :
    ∀ (pts : List (ℚ × ℚ)) (grid : ℤ × ℤ → ℚ),
      (pts.foldl (addHit spec) grid) c =
        grid c + ((pts.filter (fun pt =>
          worldToGrid spec.minX spec.minY spec.resolution pt = c)).length : ℚ) := by
  intro pts
  induction pts with
  | nil => intro grid; simp
  | cons pt pts ih =>
    intro grid
    rw [List.foldl_cons, ih]
    by_cases hw : worldToGrid spec.minX spec.minY spec.resolution pt = c
    · rw [List.filter_cons_of_pos (by simpa using hw)]
      have hstep : addHit spec grid pt c = grid c + 1 := by
        simp only [addHit]
        rw [if_pos (by rwa [hw])]
        simp [hw]
      rw [hstep]
      push_cast [List.length_cons]
      ring
    · rw [List.filter_cons_of_neg (by simpa using hw)]
      have hstep : addHit spec grid pt c = grid c := by
        simp only [addHit]
        split_ifs with h
        · simp only []
          rw [if_neg (fun hcontra => hw hcontra.symm)]
        · rfl
      rw [hstep]

/-- C8 (amended): for every path the rasterizer samples exactly
`max(2, ceil(length/sampleDistance), minSamples)` points at equal
normalised arc-length spacing — note the extra lower bound of 2 compared to
the claimed `max(ceil(length/sampleDistance), minSamples)` — except that a
sample count of exactly 2 falls back to the path's raw coordinate list, and
each sample landing inside the grid increments its nearest grid cell by
1.0, so the grid value at an in-grid cell is the accumulated hit count over
all paths, not a binary mask. -/
theorem rasterizePaths_spec (spec : RasterGridSpec) (paths : List RasterPath)
    (d : ℚ) (m : Nat) (c : ℤ × ℤ) (hc : inGrid spec c) :
    (∀ p : RasterPath, 2 < numSamples p d m →
      (samplePoints p d m).length = max (max 2 (⌈p.length / d⌉).toNat) m) ∧
    (∀ p : RasterPath, numSamples p d m = 2 → samplePoints p d m = p.coords) ∧
    rasterizePaths spec paths d m c =
      ((paths.map (fun p => (pathHits spec p d m c : ℚ))).sum) := by
  refine ⟨?_, ?_, ?_⟩
  · intro p hn
    unfold samplePoints
    dsimp only
    rw [if_neg (by omega)]
    rw [List.length_map, List.length_range]
    rfl
  · intro p hn
    unfold samplePoints
    rw [if_pos hn]
  · have hfold : ∀ (ps : List RasterPath) (grid : ℤ × ℤ → ℚ),
        (ps.foldl (fun g p => (samplePoints p d m).foldl (addHit spec) g) grid) c =
          grid c + ((ps.map (fun p => (pathHits spec p d m c : ℚ))).sum) := by
      intro ps
      induction ps with
      | nil => intro grid; simp
      | cons p ps ih =>
        intro grid
        rw [List.foldl_cons, ih, foldl_addHit spec c hc]
        simp only [List.map_cons, List.sum_cons]
        unfold pathHits
        ring
    unfold rasterizePaths
    rw [hfold]
    simp

/-- Witness for C8 (amended) on a 10×10 grid at unit resolution. -/
theorem rasterizePaths_spec_w :
    inGrid demoGridSpec (0, 0) ∧
    rasterizePaths demoGridSpec [shortRasterPath] (1/20) 1 (0, 0) =
      (([shortRasterPath].map
        (fun p => (pathHits demoGridSpec p (1/20) 1 (0, 0) : ℚ))).sum) :=
  ⟨by decide,
   (rasterizePaths_spec demoGridSpec [shortRasterPath] (1/20) 1 (0, 0)
     (by decide)).2.2⟩

/-- C8 counterexample: a two-point path of length 0.03 mm with
`sampleDistance = 0.05` and `minSamples = 1` is sampled at 2 points (the
code's extra `max(2, ...)` lower bound), not at
`max(ceil(length/sampleDistance), minSamples) = 1` as the claim's formula
states. -/
theorem samplePoints_count_cex :
    (samplePoints shortRasterPath (1/20) 1).length ≠
      max (⌈shortRasterPath.length / (1/20)⌉).toNat 1 := by
  have hc : ⌈(3 : ℚ) / 5⌉ = 1 := by
    rw [Int.ceil_eq_iff]
    norm_num
  norm_num [samplePoints, numSamples, hc, shortRasterPath]

/-! ## Thin-annular-pad detection -/

/-- C2: for a small near-circular polygon with exactly one hole (the
pre-pass preconditions `pad_size <= 4`, `aspect_ratio <= 1.15` and a
nonempty interior list), the thin-annular-pad pre-pass flags the polygon if
and only if its ring width lies strictly between `lineSpacing` and
`2 × lineSpacing` — so a ring width of exactly `lineSpacing` or exactly
`2 × lineSpacing` is not flagged — and a flagged polygon yields the
circular centerline centred at the polygon's centroid with radius
`(outerRadius + innerRadius) / 2`. -/
theorem detectThinAnnularPad_iff (ls : ℚ) (p : RingPoly) (ring : List Pt)
    (hone : p.interiors = [ring])
    (hsize : padSize p ≤ 4)
    (hasp : aspectRatio p ≤ 23 / 20) :
    ((detectThinAnnularPad ls p).isSome ↔
      ((ls : ℝ) < annularRingWidth p ∧ annularRingWidth p < 2 * (ls : ℝ))) ∧
    ∀ c : ThinRingCircle, detectThinAnnularPad ls p = some c →
      c.radius = (outerRadius p + innerRadius p) / 2 ∧
      c.center = polyCentroid p := by
  unfold detectThinAnnularPad
  rw [if_neg (by simp [hone]), if_neg (not_lt.mpr hsize), if_neg (not_lt.mpr hasp)]
  constructor
  · constructor
    · intro h
      by_contra hcontra
      rw [if_neg hcontra] at h
      simp at h
    · intro h
      rw [if_pos h]
      rfl
  · intro c hc
    split_ifs at hc with h
    obtain rfl := Option.some.inj hc
    exact ⟨rfl, rfl⟩

theorem diamond_centroid : polyCentroid diamondAnnulus = (0, 0) := by
  norm_num [polyCentroid, ringCentroid, ringCentroid6A, ringAreaAbs,
    ringArea2, ringEdges, diamondAnnulus]

theorem diamond_outerRadius : outerRadius diamondAnnulus = 2 := by
  have h4 : Real.sqrt 4 = 2 := by
    rw [show (4 : ℝ) = 2 ^ 2 by norm_num]
    exact Real.sqrt_sq (by norm_num)
  unfold outerRadius avgVertexDist
  rw [diamond_centroid]
  norm_num [diamondAnnulus, ptDist, h4]

theorem diamond_innerRadius : innerRadius diamondAnnulus = 1 / 2 := by
  have h4 : Real.sqrt (1 / 4) = 1 / 2 := by
    rw [show (1 / 4 : ℝ) = (1 / 2) ^ 2 by norm_num]
    exact Real.sqrt_sq (by norm_num)
  unfold innerRadius avgVertexDist
  rw [diamond_centroid]
  norm_num [diamondAnnulus, ptDist, h4]

theorem diamond_ringWidth : annularRingWidth diamondAnnulus = 3 / 2 := by
  unfold annularRingWidth
  rw [diamond_outerRadius, diamond_innerRadius]
  norm_num

/-- Witness for C2: a diamond-shaped annulus of outer radius 2, inner
radius 1/2 and ring width 3/2 = 1.5 × lineSpacing at lineSpacing 1 is
flagged. -/
theorem detectThinAnnularPad_iff_w :
    (diamondAnnulus.interiors =
      [[(1/2, 0), (0, 1/2), (-1/2, 0), (0, -1/2), (1/2, 0)]] ∧
     padSize diamondAnnulus ≤ 4 ∧
     aspectRatio diamondAnnulus ≤ 23 / 20) ∧
    (detectThinAnnularPad 1 diamondAnnulus).isSome :=
  ⟨⟨rfl,
    by norm_num [padSize, boundsWidth, boundsHeight, polyBounds, allCoords,
      diamondAnnulus],
    by norm_num [aspectRatio, boundsWidth, boundsHeight, polyBounds, allCoords,
      diamondAnnulus]⟩,
   (detectThinAnnularPad_iff 1 diamondAnnulus
      [(1/2, 0), (0, 1/2), (-1/2, 0), (0, -1/2), (1/2, 0)] rfl
      (by norm_num [padSize, boundsWidth, boundsHeight, polyBounds, allCoords,
        diamondAnnulus])
      (by norm_num [aspectRatio, boundsWidth, boundsHeight, polyBounds, allCoords,
        diamondAnnulus])).1.mpr
    (by rw [diamond_ringWidth]; norm_num)⟩

/-! ## Isolation classification -/

theorem abs_coord_le_dist (x y : Plane) (i : Fin 2) : |x i - y i| ≤ dist x y := by
  rw [EuclideanSpace.dist_eq, show |x i - y i| = Real.sqrt (dist (x i) (y i) ^ 2) by
    rw [Real.sqrt_sq dist_nonneg, Real.dist_eq]]
  apply Real.sqrt_le_sqrt
  have hsum : dist (x i) (y i) ^ 2 ≤ ∑ j, dist (x j) (y j) ^ 2 :=
    Finset.single_le_sum (fun j _ => sq_nonneg (dist (x j) (y j)))
      (Finset.mem_univ i)
  exact hsum

theorem squarePad_subset_ball (c : Plane) : squarePad c 1 ⊆ Metric.ball c 1 := by
  intro p hp
  obtain ⟨h0, h1⟩ := hp
  rw [Metric.mem_ball, EuclideanSpace.dist_eq]
  have hs : ∑ i, dist (p i) (c i) ^ 2 ≤ 1 / 2 := by
    rw [Fin.sum_univ_two, Real.dist_eq, Real.dist_eq, sq_abs, sq_abs]
    have e0 : (p 0 - c 0) ^ 2 ≤ (1 / 2) ^ 2 :=
      sq_le_sq' (by linarith [abs_le.mp h0]) (by linarith [abs_le.mp h0])
    have e1 : (p 1 - c 1) ^ 2 ≤ (1 / 2) ^ 2 :=
      sq_le_sq' (by linarith [abs_le.mp h1]) (by linarith [abs_le.mp h1])
    nlinarith
  calc Real.sqrt (∑ i, dist (p i) (c i) ^ 2) ≤ Real.sqrt (1 / 2) :=
        Real.sqrt_le_sqrt hs
    _ < Real.sqrt 1 := by
        apply Real.sqrt_lt_sqrt (by norm_num)
        norm_num
    _ = 1 := Real.sqrt_one

theorem squarePad_subset_closedBall (c : Plane) :
    squarePad c 1 ⊆ Metric.closedBall c 1 :=
  (squarePad_subset_ball c).trans Metric.ball_subset_closedBall

theorem closedBall_subset_squarePad (c : Plane) :
    Metric.closedBall c 4 ⊆ squarePad c 9 := by
  intro q hq
  rw [Metric.mem_closedBall] at hq
  constructor
  · have := abs_coord_le_dist q c 0
    linarith
  · have := abs_coord_le_dist q c 1
    linarith

theorem volume_ball_plane (y : Plane) (r : ℝ) (hr : 0 ≤ r) :
    MeasureTheory.volume (Metric.ball y r) =
      ENNReal.ofReal (r ^ 2) * MeasureTheory.volume (Metric.ball (0 : Plane) 1) := by
  rw [MeasureTheory.Measure.addHaar_ball MeasureTheory.volume y hr]
  rw [finrank_euclideanSpace_fin]

/-- C7: first, `_is_path_isolated` classifies a path as isolated exactly
when the copper density in its `isolationThreshold`-buffer is strictly
below 20 % (given the buffer has positive area, which every real path's
buffer has); second, for a single isolated 1 mm square pad with no other
copper anywhere (trivially farther than 2 × isolationThreshold from other
copper), every nonempty path inside the pad — hence 100 % of its fill
paths — classifies as isolated at the default 3 mm threshold; third, for
the same pad embedded in copper that covers its whole neighbourhood (a
dense copper grid in the limit), no path inside the pad classifies as
isolated. -/
theorem isPathIsolated_spec :
    (∀ (path copper : Set Plane) (t : ℝ),
      0 < regionArea (searchZone path t) →
      (isPathIsolated path copper t ↔ copperDensity path copper t < 1 / 5)) ∧
    (∀ (c : Plane) (path : Set Plane), path.Nonempty → path ⊆ squarePad c 1 →
      isPathIsolated path (squarePad c 1) 3) ∧
    (∀ (c : Plane) (path : Set Plane), path ⊆ squarePad c 1 →
      ¬ isPathIsolated path (squarePad c 9) 3) := by
  have hBpos : 0 < MeasureTheory.volume (Metric.ball (0 : Plane) 1) :=
    Metric.measure_ball_pos MeasureTheory.volume 0 one_pos
  have hBfin : MeasureTheory.volume (Metric.ball (0 : Plane) 1) < ⊤ :=
    MeasureTheory.measure_ball_lt_top
  have hbpos : 0 < (MeasureTheory.volume (Metric.ball (0 : Plane) 1)).toReal :=
    ENNReal.toReal_pos hBpos.ne' hBfin.ne
  have hzone_sub : ∀ (c : Plane) (path : Set Plane), path ⊆ squarePad c 1 →
      searchZone path 3 ⊆ Metric.closedBall c 4 := by
    intro c path hsub
    calc searchZone path 3 ⊆ Metric.cthickening 3 (Metric.closedBall c 1) :=
          Metric.cthickening_subset_of_subset 3
            (hsub.trans (squarePad_subset_closedBall c))
      _ = Metric.closedBall c 4 := by
          rw [cthickening_closedBall (by norm_num : (0:ℝ) ≤ 3)
            (by norm_num : (0:ℝ) ≤ 1) c]
          norm_num
  have hzone_fin : ∀ (c : Plane) (path : Set Plane), path ⊆ squarePad c 1 →
      MeasureTheory.volume (searchZone path 3) ≠ ⊤ := by
    intro c path hsub
    have h1 : MeasureTheory.volume (searchZone path 3) ≤
        MeasureTheory.volume (Metric.ball c 5) :=
      MeasureTheory.measure_mono ((hzone_sub c path hsub).trans
        (Metric.closedBall_subset_ball (by norm_num)))
    have h2 : MeasureTheory.volume (Metric.ball c 5) < ⊤ :=
      MeasureTheory.measure_ball_lt_top
    exact (lt_of_le_of_lt h1 h2).ne
  refine ⟨?_, ?_, ?_⟩
  · intro path copper t hpos
    exact ⟨fun h => h.2, fun h => ⟨hpos, h⟩⟩
  · intro c path hne hsub
    obtain ⟨x, hx⟩ := hne
    have hz_lo : ENNReal.ofReal 9 *
        MeasureTheory.volume (Metric.ball (0 : Plane) 1) ≤
        MeasureTheory.volume (searchZone path 3) := by
      rw [show ENNReal.ofReal 9 = ENNReal.ofReal ((3 : ℝ) ^ 2) by norm_num,
        ← volume_ball_plane x 3 (by norm_num)]
      exact MeasureTheory.measure_mono
        (Metric.ball_subset_closedBall.trans
          (Metric.closedBall_subset_cthickening hx 3))
    have hz_loR : 9 * (MeasureTheory.volume (Metric.ball (0 : Plane) 1)).toReal ≤
        regionArea (searchZone path 3) := by
      unfold regionArea
      have hmono := (ENNReal.toReal_le_toReal
        (ENNReal.mul_ne_top ENNReal.ofReal_ne_top hBfin.ne)
        (hzone_fin c path hsub)).mpr hz_lo
      rw [ENNReal.toReal_mul, ENNReal.toReal_ofReal (by norm_num : (0:ℝ) ≤ 9)]
        at hmono
      exact hmono
    have hz_pos : 0 < regionArea (searchZone path 3) := by nlinarith
    have hcap : regionArea (searchZone path 3 ∩ squarePad c 1) ≤
        (MeasureTheory.volume (Metric.ball (0 : Plane) 1)).toReal := by
      unfold regionArea
      have h1 : MeasureTheory.volume (searchZone path 3 ∩ squarePad c 1) ≤
          MeasureTheory.volume (Metric.ball c 1) :=
        MeasureTheory.measure_mono
          (Set.inter_subset_right.trans (squarePad_subset_ball c))
      have h2 : MeasureTheory.volume (Metric.ball c 1) =
          MeasureTheory.volume (Metric.ball (0 : Plane) 1) := by
        rw [volume_ball_plane c 1 (by norm_num)]
        norm_num
      rw [h2] at h1
      exact ENNReal.toReal_le_toReal
        ((lt_of_le_of_lt h1 hBfin).ne) hBfin.ne |>.mpr h1
    refine ⟨hz_pos, ?_⟩
    unfold copperDensity
    have hle : regionArea (searchZone path 3 ∩ squarePad c 1) /
        regionArea (searchZone path 3) ≤
        (MeasureTheory.volume (Metric.ball (0 : Plane) 1)).toReal /
          (9 * (MeasureTheory.volume (Metric.ball (0 : Plane) 1)).toReal) :=
      div_le_div₀ hbpos.le hcap (by nlinarith) hz_loR
    have heq : (MeasureTheory.volume (Metric.ball (0 : Plane) 1)).toReal /
        (9 * (MeasureTheory.volume (Metric.ball (0 : Plane) 1)).toReal) =
        1 / 9 := by
      field_simp
      ring
    rw [heq] at hle
    linarith
  · intro c path hsub h
    obtain ⟨hpos, hden⟩ := h
    have hzone_copper : searchZone path 3 ⊆ squarePad c 9 :=
      (hzone_sub c path hsub).trans (closedBall_subset_squarePad c)
    have hinter : searchZone path 3 ∩ squarePad c 9 = searchZone path 3 :=
      Set.inter_eq_left.mpr hzone_copper
    rw [show copperDensity path (squarePad c 9) 3 =
        regionArea (searchZone path 3 ∩ squarePad c 9) /
          regionArea (searchZone path 3) from rfl, hinter,
      div_self (ne_of_gt hpos)] at hden
    norm_num at hden

/-- Witness for C7: the singleton path at the centre of a unit square pad. -/
theorem isPathIsolated_spec_w :
    (({(0 : Plane)} : Set Plane).Nonempty ∧
      ({(0 : Plane)} : Set Plane) ⊆ squarePad 0 1) ∧
    isPathIsolated ({(0 : Plane)} : Set Plane) (squarePad 0 1) 3 :=
  have hsub : ({(0 : Plane)} : Set Plane) ⊆ squarePad 0 1 := by
    intro p hp
    rw [Set.mem_singleton_iff] at hp
    subst hp
    constructor <;> simp
  ⟨⟨⟨0, rfl⟩, hsub⟩, isPathIsolated_spec.2.1 0 _ ⟨0, rfl⟩ hsub⟩

end LaserResist
